import Mathlib

/-!
Verification development for the 3p-frame module (src/3p-frame.js):
the AMP postMessage codec (serializeMessage / deserializeMessage /
isAmpMessage), the sentinel generator, the random identity generator
and the bootstrap URL resolver.

JavaScript values, objects and builtins used by the source are given a
shallow embedding: JS objects holding JSON data become association lists
that keep insertion order, the builtins JSON.stringify / JSON.parse /
String.prototype.indexOf / Number#toString are modelled as executable
Lean functions over lists of characters, stateful window fields become
explicit state passing, and code that can throw returns an Except value.
-/

/-! ## Basic String helpers -/

/-- Data of an appended string is the appended data. -/
theorem strData_append (a b : String) : (a ++ b).data = a.data ++ b.data := rfl

/-- Rebuilding a string from its character data gives the string back. -/
theorem strEta (s : String) : String.mk s.data = s := rfl

/-- Strings with the same character data are equal. -/
theorem strExt {a b : String} (h : a.data = b.data) : a = b := by
  rw [← strEta a, ← strEta b, h]

/-- A string whose left append factor is nonempty is nonempty. -/
theorem append_left_ne_empty {a : String} (b : String) (h : a ≠ "") :
    a ++ b ≠ "" := by
  intro he
  apply h
  have hd := congrArg String.data he
  rw [strData_append] at hd
  have : a.data = [] := (List.append_eq_nil.mp hd).1
  calc a = String.mk a.data := (strEta a).symm
    _ = String.mk [] := by rw [this]
    _ = "" := rfl

/-! ## The JS substring-search builtin (String.prototype.indexOf)

Models the ECMAScript builtin used by the source: the index of the first
occurrence of a pattern inside a list of characters, or none. -/

/-- First index at which the pattern occurs as a sublist, if any.
Models the search performed by the JS indexOf builtin. -/
def listIndexOfSub (p : List Char) : List Char → Option Nat
  | [] => if List.isPrefixOf p [] then some 0 else none
  | c :: t =>
    if List.isPrefixOf p (c :: t) then some 0
    else Option.map (· + 1) (listIndexOfSub p t)

/-- Models the JS expression s.indexOf(pat): the first occurrence index,
or -1 when the pattern does not occur. -/
def jsIndexOf (s pat : String) : Int :=
  match listIndexOfSub pat.data s.data with
  | some n => (n : Int)
  | none => -1

/-- A list is a Boolean prefix of itself followed by anything. -/
theorem isPrefixOf_append_self (l r : List Char) :
    List.isPrefixOf l (l ++ r) = true := by
  induction l with
  | nil => simp [List.isPrefixOf]
  | cons c t ih => simp [List.isPrefixOf, ih]

/-- The sublist search returns index zero exactly on a Boolean prefix. -/
theorem listIndexOfSub_eq_zero_iff (p l : List Char) :
    listIndexOfSub p l = some 0 ↔ List.isPrefixOf p l = true := by
  cases l with
  | nil =>
    simp only [listIndexOfSub]
    constructor
    · intro h
      by_cases hp : List.isPrefixOf p [] = true
      · exact hp
      · simp [hp] at h
    · intro h; simp [h]
  | cons c t =>
    simp only [listIndexOfSub]
    constructor
    · intro h
      by_cases hp : List.isPrefixOf p (c :: t) = true
      · exact hp
      · simp only [hp, if_false] at h
        cases hx : listIndexOfSub p t with
        | none => simp [hx] at h
        | some n => simp [hx] at h
    · intro h; simp [h]

/-! ## JSON data model

The values carried in AMP messages.  The model restricts JSON numbers to
integers; this covers the wire format the codec is specified on. -/

/-- A JSON-compatible primitive value of a message field. -/
inductive JSPrim where
  | str : String → JSPrim
  | num : Int → JSPrim
  | boolean : Bool → JSPrim
  | null : JSPrim
  deriving DecidableEq

/-- A message object: key-value pairs in insertion order, as a JS object
holding JSON data. -/
abbrev Message := List (String × JSPrim)

/-- An arbitrary JS value arriving on the postMessage channel; the codec
receives values whose type the channel does not guarantee. -/
inductive JSAny where
  | str : String → JSAny
  | num : Int → JSAny
  | boolean : Bool → JSAny
  | null : JSAny
  | undefined : JSAny
  | obj : Message → JSAny
  deriving DecidableEq

/-- JS property assignment on an object: an existing key is updated in
place (keeping its position), a new key is appended. -/
def setKey : Message → String → JSPrim → Message
  | [], k, v => [(k, v)]
  | (k2, v2) :: t, k, v =>
    if k2 = k then (k, v) :: t else (k2, v2) :: setKey t k v

/-- First value stored under a key, if any. -/
def lookupKey : Message → String → Option JSPrim
  | [], _ => none
  | (k2, v2) :: t, k => if k2 = k then some v2 else lookupKey t k

/-! ## JSON.stringify (modelled)

Models the ECMAScript JSON.stringify builtin on message objects: keys in
insertion order, quote and backslash escaped, integers in decimal. -/

/-- Escaping of one character inside a JSON string literal. -/
def escapeChars : List Char → List Char
  | [] => []
  | c :: t =>
    (if c = '"' ∨ c = '\\' then ['\\', c] else [c]) ++ escapeChars t

/-- The decimal digit character for a digit value below ten. -/
def digitChar : Nat → Char
  | 0 => '0' | 1 => '1' | 2 => '2' | 3 => '3' | 4 => '4'
  | 5 => '5' | 6 => '6' | 7 => '7' | 8 => '8' | _ => '9'

/-- Big-endian decimal digit characters of a natural number. -/
def natChars (n : Nat) : List Char :=
  if _h : n < 10 then [digitChar n]
  else natChars (n / 10) ++ [digitChar (n % 10)]
  termination_by n
  decreasing_by exact Nat.div_lt_self (by omega) (by omega)

/-- Decimal digit characters of an integer, with a leading minus sign on
negative values, as the JS number-to-string conversion renders integers. -/
def intChars (i : Int) : List Char :=
  if i < 0 then '-' :: natChars (-i).toNat else natChars i.toNat

/-- JSON rendering of one primitive value. -/
def stringifyPrimL : JSPrim → List Char
  | .str s => '"' :: (escapeChars s.data ++ ['"'])
  | .num i => intChars i
  | .boolean true => ['t', 'r', 'u', 'e']
  | .boolean false => ['f', 'a', 'l', 's', 'e']
  | .null => ['n', 'u', 'l', 'l']

/-- JSON rendering of one key-value member. -/
def stringifyMemberL (kv : String × JSPrim) : List Char :=
  '"' :: (escapeChars kv.1.data ++ '"' :: ':' :: stringifyPrimL kv.2)

/-- JSON rendering of the member list, comma separated. -/
def stringifyMembersL : Message → List Char
  | [] => []
  | [kv] => stringifyMemberL kv
  | kv :: kv2 :: t => stringifyMemberL kv ++ ',' :: stringifyMembersL (kv2 :: t)

/-- Models JSON.stringify on a message object. -/
def jsonStringify (m : Message) : String :=
  String.mk ('\x7b' :: (stringifyMembersL m ++ ['\x7d']))

/-! ## JSON.parse (modelled)

Models the ECMAScript JSON.parse builtin on the object fragment the
deserializer hands it: a recursive-descent parser over characters.  The
model accepts exactly the object grammar the stringifier produces
(no whitespace, integer numbers); anything else parses to none, which
matches the parse exception path of the builtin. -/

/-- Parses the body of a JSON string literal after its opening quote,
returning the decoded characters and the input after the closing quote. -/
def parseStringBody : List Char → Option (List Char × List Char)
  | [] => none
  | c :: t =>
    if c = '"' then some ([], t)
    else if c = '\\' then
      match t with
      | [] => none
      | e :: t2 =>
        if e = '"' ∨ e = '\\' then
          Option.map (fun p => (e :: p.1, p.2)) (parseStringBody t2)
        else none
    else Option.map (fun p => (c :: p.1, p.2)) (parseStringBody t)

/-- Numeric value of big-endian decimal digit characters. -/
def natFromChars (l : List Char) : Nat :=
  l.foldl (fun n c => n * 10 + (c.toNat - 48)) 0

/-- Takes a nonempty run of leading decimal digits. -/
def parseDigits (l : List Char) : Option (List Char × List Char) :=
  let ds := l.takeWhile (fun c => c.isDigit)
  if ds = [] then none else some (ds, l.dropWhile (fun c => c.isDigit))

/-- Parses one JSON primitive value. -/
def parsePrim (l : List Char) : Option (JSPrim × List Char) :=
  match l with
  | [] => none
  | c :: t =>
    if c = '"' then
      Option.map (fun p => (JSPrim.str (String.mk p.1), p.2)) (parseStringBody t)
    else if c = 't' then
      match t with
      | 'r' :: 'u' :: 'e' :: r => some (.boolean true, r)
      | _ => none
    else if c = 'f' then
      match t with
      | 'a' :: 'l' :: 's' :: 'e' :: r => some (.boolean false, r)
      | _ => none
    else if c = 'n' then
      match t with
      | 'u' :: 'l' :: 'l' :: r => some (.null, r)
      | _ => none
    else if c = '-' then
      Option.map (fun p => (JSPrim.num (-(natFromChars p.1 : Int)), p.2)) (parseDigits t)
    else
      Option.map (fun p => (JSPrim.num ((natFromChars p.1 : Nat) : Int), p.2)) (parseDigits (c :: t))

/-- Parses a nonempty member list followed by the closing brace.  The
fuel argument bounds the number of members and is supplied from the
input length. -/
def parseMemberList : Nat → List Char → Option (Message × List Char)
  | 0, _ => none
  | f + 1, '"' :: t =>
    match parseStringBody t with
    | none => none
    | some (k, r1) =>
      match r1 with
      | ':' :: r2 =>
        match parsePrim r2 with
        | none => none
        | some (v, r3) =>
          match r3 with
          | ',' :: r4 =>
            match parseMemberList f r4 with
            | none => none
            | some (ms, r5) => some ((String.mk k, v) :: ms, r5)
          | '\x7d' :: r4 => some ([(String.mk k, v)], r4)
          | _ => none
      | _ => none
  | _ + 1, _ => none

/-- Parses a JSON object, returning the members and the remaining input. -/
def jsonParseObj (l : List Char) : Option (Message × List Char) :=
  match l with
  | '\x7b' :: rest =>
    match rest with
    | '\x7d' :: r2 => some ([], r2)
    | _ => parseMemberList (rest.length + 1) rest
  | _ => none

/-- Models JSON.parse on the fragment passed by the deserializer: the
whole input must be one JSON object, otherwise the builtin throws and
the model returns none. -/
def jsonParse (s : String) : Option Message :=
  match jsonParseObj s.data with
  | some (m, []) => some m
  | _ => none

/-! ## The message codec (source lines 333-403) -/

/-- Fixed protocol tag of AMP post messages (source line 334). -/
def AMP_MESSAGE_PREFIX : String := "amp-"

/-- The closed enumeration of message type names (source lines 337-352). -/
def messageTypeValues : List String :=
  ["send-embed-state", "embed-state", "send-embed-context", "embed-context",
   "send-intersections", "intersection", "embed-size", "embed-size-changed",
   "embed-size-denied", "send-positions", "position"]

/-- A string is a valid message kind when it is one of the enumerated
message type values. -/
def validMessageType (t : String) : Prop := t ∈ messageTypeValues

instance (t : String) : Decidable (validMessageType t) := by
  unfold validMessageType; infer_instance

/-- serializeMessage (source lines 363-369): sets the type and sentinel
keys on the given data object in place, then returns the tag, the
version token when present, and the JSON encoding, concatenated.  The
first component is the returned string, the second the mutated data
object (the frame effect of the JS function on its data argument). -/
def serializeMessage (type sentinel : String) (data : Message)
    (rtvVersion : Option String) : String × Message :=
  let message := setKey (setKey data "type" (.str type)) "sentinel" (.str sentinel)
  ( AMP_MESSAGE_PREFIX ++ (match rtvVersion with | some v => v | none => "")
      ++ jsonStringify message,
    message)

/-- isAmpMessage (source lines 400-403): true when the value is a string
whose first occurrence of the tag is at position zero. -/
def isAmpMessage (m : JSAny) : Bool :=
  match m with
  | .str s => jsIndexOf s AMP_MESSAGE_PREFIX == 0
  | _ => false

/-- deserializeMessage (source lines 378-393): rejects values that are
not tagged strings, locates the first opening brace, and JSON-parses the
substring from there; both the missing-brace path and the parse failure
path log and return null. -/
def deserializeMessage (m : JSAny) : Option Message :=
  if isAmpMessage m then
    match m with
    | .str s =>
      match listIndexOfSub ['\x7b'] s.data with
      | none => none
      | some startPos => jsonParse (String.mk (s.data.drop startPos))
    | _ => none
  else none

/-! ## The window model

State the source reads and writes on the parent window, made explicit:
the frame ancestor chain, the entropy sources, the location, the custom
bootstrap meta tag and the cached bootstrap URL. -/

/-- The ancestor chain of a frame; the top frame is its own parent in
the browser object model. -/
inductive FrameChain where
  | top : FrameChain
  | child : FrameChain → FrameChain
  deriving DecidableEq

/-- The parent accessor: the top frame is its own parent. -/
def jsParent : FrameChain → FrameChain
  | .top => .top
  | .child p => p

/-- A window with the fields the source uses.  Entropy is modelled as
streams indexed by a consumption counter: cryptoVals yields the two
32-bit values getRandomValues would fill in, and mathRandomSig with
mathRandomExp describe the float Math.random would return, as the
significand digits and decimal exponent of a value in the interval
from zero to one. -/
structure Window where
  frame : FrameChain
  cryptoPresent : Bool
  cryptoVals : Nat → Nat × Nat
  mathRandomSig : Nat → List Nat
  mathRandomExp : Nat → Int
  entropyIdx : Nat
  locationHref : String
  locationPort : String
  parentLocationPort : String
  metaAmp3pIframeSrc : Option String
  bootstrapBaseUrl : Option String

/-- Modelled from the spec: the ECMAScript number-to-string conversion,
restricted to non-negative values below ten to the twenty-first power.
The value is given as its shortest significand digits sig and the
decimal exponent n, with value = 0.sig x 10 ^ n; values whose exponent
is at most minus six render in exponential notation, which is the case
Math.random can hit for draws below one millionth. -/
def jsNumberToString (sig : List Nat) (n : Int) : String :=
  if sig = [] then "0"
  else if 0 < n then
    if (sig.length : Int) ≤ n then
      String.mk (sig.map digitChar)
        ++ String.mk (List.replicate (n - sig.length).toNat '0')
    else
      String.mk ((sig.take n.toNat).map digitChar) ++ "."
        ++ String.mk ((sig.drop n.toNat).map digitChar)
  else if -5 ≤ n then
    "0." ++ String.mk (List.replicate (-n).toNat '0')
      ++ String.mk (sig.map digitChar)
  else
    match sig with
    | [] => "0"
    | d :: ds =>
      String.mk [digitChar d]
        ++ (if ds = [] then "" else "." ++ String.mk (ds.map digitChar))
        ++ "e"
        ++ (if 0 ≤ n - 1 then "+" ++ Nat.repr (n - 1).toNat
            else "-" ++ Nat.repr (-(n - 1)).toNat)

/-- getRandom (source lines 252-264): with a crypto source, draws two
32-bit integers and concatenates their decimal renderings; otherwise
renders a Math.random draw, drops the first two characters (the
leading zero and dot of the usual rendering) and appends a zero digit.
Returns the string and the window with the entropy counter advanced. -/
def getRandom (w : Window) : String × Window :=
  let w2 := { w with entropyIdx := w.entropyIdx + 1 }
  if w.cryptoPresent then
    ( Nat.repr ((w.cryptoVals w.entropyIdx).1 % 4294967296)
        ++ Nat.repr ((w.cryptoVals w.entropyIdx).2 % 4294967296),
      w2)
  else
    ( String.mk ((jsNumberToString (w.mathRandomSig w.entropyIdx)
        (w.mathRandomExp w.entropyIdx)).data.drop 2) ++ "0",
      w2)

/-- The window-depth loop of generateSentinel (source lines 305-308):
counts steps up the parent chain while the frame differs from its
parent. -/
def windowDepth (w : FrameChain) : Nat :=
  if h : w = jsParent w then 0 else 1 + windowDepth (jsParent w)
  termination_by sizeOf w
  decreasing_by
    cases w with
    | top => exact absurd rfl h
    | child p => simp [jsParent]

/-- Ancestor count of a frame, as the spec describes the depth: zero for
the top frame, one more for each nesting level. -/
def countAncestors : FrameChain → Nat
  | .top => 0
  | .child p => countAncestors p + 1

/-- generateSentinel (source lines 304-310): the decimal depth, a dash,
and a random identity, with the entropy consumption threaded through. -/
def generateSentinel (w : Window) : String × Window :=
  let r := getRandom w
  (Nat.repr (windowDepth w.frame) ++ "-" ++ r.1, r.2)

/-! ## The bootstrap URL resolver (source lines 179-294)

The helpers the source imports from url.js, mode.js and config.js are
not part of src/, so they are modelled from the spec where noted. -/

/-- Runtime mode flags read through getMode (mode.js is not in src/).
Modelled from the spec: branch on local-development, test and minified
build modes. -/
structure Mode where
  localDev : Bool
  test : Bool
  minified : Bool

/-- URL configuration read from config.js (not in src/).  Modelled from
the spec: a local-dev flag and the configured third-party hosts. -/
structure Urls where
  localDev : Bool
  thirdPartyFrameHost : String
  thirdParty : String

/-- Module-level environment: the mode, the URL configuration, and the
test-only override set by setDefaultBootstrapBaseUrlForTesting (source
lines 197-199). -/
structure Env where
  mode : Mode
  urls : Urls
  overrideBootstrapBaseUrl : Option String

/-- JS string-or: the left string unless it is empty (falsy). -/
def jsOrStr (a b : String) : String := if a = "" then b else a

/-- The string of an optional string, empty when absent. -/
def optStr : Option String → String
  | some s => s
  | none => ""

/-- JS truthiness of an optional string: present and nonempty. -/
def jsTruthy : Option String → Bool
  | some s => !(s == "")
  | none => false

/-- Modelled from the spec: the parsed-URL record returned by parseUrl
of url.js (not in src/), with the fields the source reads. -/
structure ParsedUrl where
  protocol : String
  hostname : String
  host : String
  origin : String
  deriving DecidableEq

/-- Modelled from the spec: parseUrl of url.js (not in src/).  Splits
scheme://authority, the hostname being the authority up to a colon and
the origin being scheme plus authority. -/
def parseUrl (url : String) : ParsedUrl :=
  match listIndexOfSub [':', '/', '/'] url.data with
  | none => { protocol := "", hostname := "", host := "", origin := "" }
  | some i =>
    let scheme := url.data.take i
    let rest := url.data.drop (i + 3)
    let auth := rest.takeWhile (fun c => c ≠ '/' ∧ c ≠ '?' ∧ c ≠ '#')
    { protocol := String.mk scheme ++ ":",
      hostname := String.mk (auth.takeWhile (fun c => c ≠ ':')),
      host := String.mk auth,
      origin := String.mk scheme ++ "://" ++ String.mk auth }

/-- Modelled from the spec: assertHttpsUrl of url.js (not in src/)
asserts that the URL scheme is HTTPS, a configuration error otherwise. -/
def assertHttpsUrl (url : String) : Bool :=
  (parseUrl url).protocol == "https:"

/-- The configuration errors the resolver can raise as thrown user
assertion failures. -/
inductive ConfigError where
  | notHttps : ConfigError
  | queryStringPresent : ConfigError
  | sameOrigin : ConfigError
  deriving DecidableEq

instance {ε α : Type} [DecidableEq ε] [DecidableEq α] : DecidableEq (Except ε α) :=
  fun x y =>
    match x, y with
    | .ok a, .ok b =>
      if h : a = b then isTrue (by rw [h])
      else isFalse (by intro hh; cases hh; exact h rfl)
    | .error a, .error b =>
      if h : a = b then isTrue (by rw [h])
      else isFalse (by intro hh; cases hh; exact h rfl)
    | .ok _, .error _ => isFalse (by intro hh; cases hh)
    | .error _, .ok _ => isFalse (by intro hh; cases hh)

/-- getCustomBootstrapBaseUrl (source lines 273-294): none without the
meta tag; with it, asserts HTTPS, asserts the absence of a query string,
asserts a localhost relaxation or a differing origin, and appends the
version token query parameter. -/
def getCustomBootstrapBaseUrl (w : Window) (strict : Bool) :
    Except ConfigError (Option String) :=
  match w.metaAmp3pIframeSrc with
  | none => .ok none
  | some url =>
    if !assertHttpsUrl url then .error .notHttps
    else if !(jsIndexOf url "?" == -1) then .error .queryStringPresent
    else
      let parsed := parseUrl url
      if ((parsed.hostname == "localhost" && !strict)
          || !(parsed.origin == (parseUrl w.locationHref).origin)) then
        .ok (some (url ++ "?$internalRuntimeVersion$"))
      else .error .sameOrigin

/-- getAdsLocalhost (source lines 228-234). -/
def getAdsLocalhost (env : Env) (w : Window) : String :=
  if env.urls.localDev then "//" ++ env.urls.thirdPartyFrameHost
  else "http://ads.localhost:" ++ jsOrStr w.locationPort w.parentLocationPort

/-- getSubDomain (source lines 243-245): the d- label over a random
identity, consuming entropy. -/
def getSubDomain (w : Window) : String × Window :=
  let r := getRandom w
  ("d-" ++ r.1, r.2)

/-- getDefaultBootstrapBaseUrl (source lines 211-226), with the entropy
consumption of the production branch threaded through the window. -/
def getDefaultBootstrapBaseUrl (env : Env) (w : Window)
    (optSrcFileBasename : Option String) : String × Window :=
  let srcFileBasename := jsOrStr (optStr optSrcFileBasename) "frame"
  if env.mode.localDev || env.mode.test then
    if jsTruthy env.overrideBootstrapBaseUrl then
      (optStr env.overrideBootstrapBaseUrl, w)
    else
      (getAdsLocalhost env w ++ "/dist.3p/"
        ++ (if env.mode.minified then "$internalRuntimeVersion$/" ++ srcFileBasename
            else "current/" ++ srcFileBasename ++ ".max")
        ++ ".html", w)
  else
    let sd := getSubDomain w
    ("https://" ++ sd.1 ++ "." ++ env.urls.thirdPartyFrameHost
      ++ "/$internalRuntimeVersion$/" ++ srcFileBasename ++ ".html", sd.2)

/-- The uncached branch of getBootstrapBaseUrl (source lines 192-194):
the custom URL when declared, the default otherwise, stored into the
window cache field. -/
def computeBootstrapBaseUrl (env : Env) (w : Window) (strict : Bool) :
    Except ConfigError (String × Window) :=
  match getCustomBootstrapBaseUrl w strict with
  | .error e => .error e
  | .ok cu =>
    if jsTruthy cu then
      .ok (optStr cu, { w with bootstrapBaseUrl := some (optStr cu) })
    else
      let d := getDefaultBootstrapBaseUrl env w none
      .ok (d.1, { d.2 with bootstrapBaseUrl := some d.1 })

/-- getBootstrapBaseUrl (source lines 186-195): returns the per-window
cached URL when truthy, otherwise resolves and caches. -/
def getBootstrapBaseUrl (env : Env) (w : Window) (strict : Bool) :
    Except ConfigError (String × Window) :=
  if jsTruthy w.bootstrapBaseUrl then .ok (optStr w.bootstrapBaseUrl, w)
  else computeBootstrapBaseUrl env w strict

/-- resetBootstrapBaseUrlForTesting (source lines 201-203). -/
def resetBootstrapBaseUrlForTesting (w : Window) : Window :=
  { w with bootstrapBaseUrl := none }

/-! ## Round-trip lemmas for the JSON codec model -/

/-- Unfolding equation for the escaper on a cons cell. -/
theorem escapeChars_cons (c : Char) (t : List Char) :
    escapeChars (c :: t)
      = (if c = '"' ∨ c = '\\' then ['\\', c] else [c]) ++ escapeChars t := rfl

/-- Parsing a string body undoes escaping, for every character list. -/
theorem parseStringBody_escape (s rest : List Char) :
    parseStringBody (escapeChars s ++ '"' :: rest) = some (s, rest) := by
  induction s with
  | nil =>
    show parseStringBody ('"' :: rest) = _
    rw [parseStringBody.eq_def]
    simp
  | cons c t ih =>
    by_cases hc : c = '"' ∨ c = '\\'
    · have h1 : escapeChars (c :: t) ++ '"' :: rest
          = '\\' :: c :: (escapeChars t ++ '"' :: rest) := by
        rw [escapeChars_cons, if_pos hc]
        simp
      rw [h1, parseStringBody.eq_def]
      simp [hc, ih]
    · push_neg at hc
      have h1 : escapeChars (c :: t) ++ '"' :: rest
          = c :: (escapeChars t ++ '"' :: rest) := by
        rw [escapeChars_cons, if_neg (by tauto)]
        simp
      rw [h1, parseStringBody.eq_def]
      simp [hc.1, hc.2, ih]

/-- Every digit value below ten renders as a digit character. -/
theorem digitChar_isDigit : ∀ d, d < 10 → (digitChar d).isDigit = true := by decide

/-- Rendering then reading one digit value below ten is the identity. -/
theorem digitChar_toNat : ∀ d, d < 10 → (digitChar d).toNat - 48 = d := by decide

/-- Digit characters are none of the characters that select another
primitive parse branch. -/
theorem digitChar_ne_special : ∀ d, d < 10 →
    digitChar d ≠ '"' ∧ digitChar d ≠ 't' ∧ digitChar d ≠ 'f' ∧
    digitChar d ≠ 'n' ∧ digitChar d ≠ '-' := by decide

/-- The decimal rendering of a natural number is never empty. -/
theorem natChars_ne_nil (n : Nat) : natChars n ≠ [] := by
  rw [natChars]
  split <;> simp

/-- Every character of the decimal rendering is a digit. -/
theorem natChars_digits (n : Nat) : ∀ c ∈ natChars n, c.isDigit = true := by
  induction n using Nat.strong_induction_on with
  | _ n ih =>
    rw [natChars]
    split
    · next h =>
      intro c hcm
      simp only [List.mem_singleton] at hcm
      rw [hcm]
      exact digitChar_isDigit n h
    · next h =>
      intro c hcm
      rcases List.mem_append.mp hcm with h1 | h2
      · exact ih (n / 10) (Nat.div_lt_self (by omega) (by omega)) c h1
      · simp only [List.mem_singleton] at h2
        rw [h2]
        exact digitChar_isDigit (n % 10) (Nat.mod_lt _ (by omega))

/-- The decimal rendering starts with a digit character of a digit value. -/
theorem natChars_cons (n : Nat) :
    ∃ d t, natChars n = digitChar d :: t ∧ d < 10 := by
  induction n using Nat.strong_induction_on with
  | _ n ih =>
    rw [natChars]
    split
    · next h => exact ⟨n, [], rfl, h⟩
    · next h =>
      obtain ⟨d, t, heq, hd⟩ := ih (n / 10) (Nat.div_lt_self (by omega) (by omega))
      exact ⟨d, t ++ [digitChar (n % 10)], by rw [heq]; rfl, hd⟩

/-- Folding the digit characters after appending one digit. -/
theorem natFromChars_append_digit (l : List Char) (c : Char) :
    natFromChars (l ++ [c]) = natFromChars l * 10 + (c.toNat - 48) := by
  simp [natFromChars, List.foldl_append]

/-- Reading back the decimal rendering of a natural number. -/
theorem natFromChars_natChars (n : Nat) : natFromChars (natChars n) = n := by
  induction n using Nat.strong_induction_on with
  | _ n ih =>
    rw [natChars]
    split
    · next h =>
      have := digitChar_toNat n h
      simp [natFromChars]
      omega
    · next h =>
      rw [natFromChars_append_digit, ih (n / 10) (Nat.div_lt_self (by omega) (by omega))]
      have := digitChar_toNat (n % 10) (Nat.mod_lt _ (by omega))
      omega

/-- takeWhile passes over a run of characters satisfying the predicate. -/
theorem takeWhile_append_all (p : Char → Bool) (l r : List Char)
    (h : ∀ c ∈ l, p c = true) :
    (l ++ r).takeWhile p = l ++ r.takeWhile p := by
  induction l with
  | nil => simp
  | cons c t ih =>
    have hc := h c (List.mem_cons_self c t)
    simp only [List.cons_append, List.takeWhile_cons, hc, if_true]
    rw [ih (fun c2 hc2 => h c2 (List.mem_cons_of_mem c hc2))]

/-- dropWhile drops exactly a run of characters satisfying the predicate. -/
theorem dropWhile_append_all (p : Char → Bool) (l r : List Char)
    (h : ∀ c ∈ l, p c = true) :
    (l ++ r).dropWhile p = r.dropWhile p := by
  induction l with
  | nil => simp
  | cons c t ih =>
    have hc := h c (List.mem_cons_self c t)
    simp only [List.cons_append, List.dropWhile_cons, hc, if_true]
    exact ih (fun c2 hc2 => h c2 (List.mem_cons_of_mem c hc2))

/-- The rest of the input does not start with a digit (or is empty), so
a digit run stops exactly there. -/
def headNotDigit : List Char → Prop
  | [] => True
  | c :: _ => c.isDigit = false

/-- The digit run parser reads back exactly the decimal rendering when
the following input does not start with a digit. -/
theorem parseDigits_natChars (n : Nat) (rest : List Char) (h : headNotDigit rest) :
    parseDigits (natChars n ++ rest) = some (natChars n, rest) := by
  have htake : rest.takeWhile (fun c => c.isDigit) = [] := by
    cases rest with
    | nil => simp
    | cons c t =>
      have hd : c.isDigit = false := h
      simp [List.takeWhile_cons, hd]
  have hdrop : rest.dropWhile (fun c => c.isDigit) = rest := by
    cases rest with
    | nil => simp
    | cons c t =>
      have hd : c.isDigit = false := h
      simp [List.dropWhile_cons, hd]
  unfold parseDigits
  rw [takeWhile_append_all _ _ _ (natChars_digits n),
      dropWhile_append_all _ _ _ (natChars_digits n), htake, hdrop,
      List.append_nil]
  simp [natChars_ne_nil n]

/-- Unfolding equation of the primitive parser on a cons cell. -/
theorem parsePrim_cons (c : Char) (t : List Char) :
    parsePrim (c :: t) =
      (if c = '"' then
        Option.map (fun p => (JSPrim.str (String.mk p.1), p.2)) (parseStringBody t)
      else if c = 't' then
        (match t with
         | 'r' :: 'u' :: 'e' :: r => some (JSPrim.boolean true, r)
         | _ => none)
      else if c = 'f' then
        (match t with
         | 'a' :: 'l' :: 's' :: 'e' :: r => some (JSPrim.boolean false, r)
         | _ => none)
      else if c = 'n' then
        (match t with
         | 'u' :: 'l' :: 'l' :: r => some (JSPrim.null, r)
         | _ => none)
      else if c = '-' then
        Option.map (fun p => (JSPrim.num (-(natFromChars p.1 : Int)), p.2)) (parseDigits t)
      else
        Option.map (fun p => (JSPrim.num ((natFromChars p.1 : Nat) : Int), p.2))
          (parseDigits (c :: t))) := rfl

/-- Parsing one primitive value after its rendering, when the following
input does not start with a digit. -/
theorem parsePrim_stringify (v : JSPrim) (rest : List Char) (h : headNotDigit rest) :
    parsePrim (stringifyPrimL v ++ rest) = some (v, rest) := by
  cases v with
  | str s =>
    have h1 : stringifyPrimL (.str s) ++ rest
        = '"' :: (escapeChars s.data ++ '"' :: rest) := by
      simp [stringifyPrimL]
    rw [h1, parsePrim_cons]
    simp [parseStringBody_escape, strEta]
  | num i =>
    by_cases hi : i < 0
    · have h1 : stringifyPrimL (.num i) ++ rest
          = '-' :: (natChars (-i).toNat ++ rest) := by
        simp [stringifyPrimL, intChars, hi]
      rw [h1, parsePrim_cons]
      simp only [reduceIte, Char.reduceEq]
      rw [parseDigits_natChars _ _ h]
      simp [natFromChars_natChars]
      omega
    · obtain ⟨d, t, heq, hd⟩ := natChars_cons i.toNat
      obtain ⟨hq, ht, hf, hn, hm⟩ := digitChar_ne_special d hd
      have h1 : stringifyPrimL (.num i) ++ rest
          = digitChar d :: (t ++ rest) := by
        simp [stringifyPrimL, intChars, hi, heq]
      rw [h1, parsePrim_cons]
      rw [if_neg hq, if_neg ht, if_neg hf, if_neg hn, if_neg hm]
      have h2 : digitChar d :: (t ++ rest) = natChars i.toNat ++ rest := by
        rw [heq]
        simp
      rw [h2, parseDigits_natChars _ _ h]
      simp [natFromChars_natChars]
      omega
  | boolean b =>
    cases b with
    | true =>
      have h1 : stringifyPrimL (.boolean true) ++ rest
          = 't' :: 'r' :: 'u' :: 'e' :: rest := by simp [stringifyPrimL]
      rw [h1, parsePrim_cons]
      simp
    | false =>
      have h1 : stringifyPrimL (.boolean false) ++ rest
          = 'f' :: 'a' :: 'l' :: 's' :: 'e' :: rest := by simp [stringifyPrimL]
      rw [h1, parsePrim_cons]
      simp
  | null =>
    have h1 : stringifyPrimL .null ++ rest
        = 'n' :: 'u' :: 'l' :: 'l' :: rest := by simp [stringifyPrimL]
    rw [h1, parsePrim_cons]
    simp

/-- Unfolding equation of the member-list parser on a quote cell with
remaining fuel. -/
theorem parseMemberList_cons (f : Nat) (t : List Char) :
    parseMemberList (f + 1) ('"' :: t) =
      (match parseStringBody t with
       | none => none
       | some (k, r1) =>
         match r1 with
         | ':' :: r2 =>
           match parsePrim r2 with
           | none => none
           | some (v, r3) =>
             match r3 with
             | ',' :: r4 =>
               match parseMemberList f r4 with
               | none => none
               | some (ms, r5) => some ((String.mk k, v) :: ms, r5)
             | '\x7d' :: r4 => some ([(String.mk k, v)], r4)
             | _ => none
         | _ => none) := rfl

/-- Parsing a nonempty member list after its rendering and the closing
brace, with fuel at least the number of members. -/
theorem parseMemberList_stringify :
    ∀ (ms : Message) (f : Nat) (rest : List Char), ms ≠ [] → ms.length ≤ f →
    parseMemberList f (stringifyMembersL ms ++ '\x7d' :: rest) = some (ms, rest) := by
  intro ms
  induction ms with
  | nil => intro f rest hne _; exact absurd rfl hne
  | cons kv ms2 ih =>
    intro f rest _ hlen
    obtain ⟨k, v⟩ := kv
    cases f with
    | zero => simp at hlen
    | succ f2 =>
      cases ms2 with
      | nil =>
        have h1 : stringifyMembersL [(k, v)] ++ '\x7d' :: rest
            = '"' :: (escapeChars k.data
                ++ '"' :: ':' :: (stringifyPrimL v ++ '\x7d' :: rest)) := by
          simp [stringifyMembersL, stringifyMemberL]
        rw [h1, parseMemberList_cons, parseStringBody_escape]
        simp [parsePrim_stringify v ('\x7d' :: rest)
          (show ('\x7d').isDigit = false by decide), strEta]
      | cons kv2 ms3 =>
        have h1 : stringifyMembersL ((k, v) :: kv2 :: ms3) ++ '\x7d' :: rest
            = '"' :: (escapeChars k.data ++ '"' :: ':' :: (stringifyPrimL v
                ++ ',' :: (stringifyMembersL (kv2 :: ms3) ++ '\x7d' :: rest))) := by
          simp [stringifyMembersL, stringifyMemberL]
        have hlen2 : (kv2 :: ms3).length ≤ f2 := by
          simp only [List.length_cons] at hlen ⊢
          omega
        rw [h1, parseMemberList_cons, parseStringBody_escape]
        simp [parsePrim_stringify v
          (',' :: (stringifyMembersL (kv2 :: ms3) ++ '\x7d' :: rest))
          (show (',').isDigit = false by decide), strEta,
          ih f2 rest (by simp) hlen2]

/-- Rendering one member takes at least one character. -/
theorem stringifyMemberL_length_pos (kv : String × JSPrim) :
    1 ≤ (stringifyMemberL kv).length := by
  obtain ⟨k, v⟩ := kv
  simp [stringifyMemberL]

/-- Rendering a member list takes at least one character per member. -/
theorem members_length_le :
    ∀ ms : Message, ms.length ≤ (stringifyMembersL ms).length := by
  intro ms
  induction ms with
  | nil => simp [stringifyMembersL]
  | cons kv t ih =>
    cases t with
    | nil =>
      have := stringifyMemberL_length_pos kv
      simp only [stringifyMembersL, List.length_cons, List.length_nil]
      omega
    | cons kv2 t2 =>
      have h1 := stringifyMemberL_length_pos kv
      simp only [stringifyMembersL, List.length_append, List.length_cons] at ih ⊢
      omega

/-- Reading the data of a rebuilt string. -/
theorem strMkData (l : List Char) : (String.mk l).data = l := rfl

/-- Unfolding equation of the object parse entry on a rebuilt string. -/
theorem jsonParse_mk (l : List Char) :
    jsonParse (String.mk l)
      = (match jsonParseObj l with
         | some (m, []) => some m
         | _ => none) := rfl

/-- Unfolding equation of the object parser on a brace followed by a
quote. -/
theorem jsonParseObj_quote (r : List Char) :
    jsonParseObj ('\x7b' :: '"' :: r)
      = parseMemberList (('"' :: r).length + 1) ('"' :: r) := rfl

/-- Parsing back the JSON rendering of a nonempty message object. -/
theorem jsonParse_stringify (m : Message) (hm : m ≠ []) :
    jsonParse (jsonStringify m) = some m := by
  cases m with
  | nil => exact absurd rfl hm
  | cons kv t =>
    obtain ⟨X, hX⟩ : ∃ X, stringifyMembersL (kv :: t) = '"' :: X := by
      obtain ⟨k, v⟩ := kv
      cases t <;> exact ⟨_, rfl⟩
    have hshape : jsonStringify (kv :: t)
        = String.mk ('\x7b' :: '"' :: (X ++ ['\x7d'])) := by
      unfold jsonStringify
      rw [hX]
      simp
    have hfuel : (kv :: t).length ≤ ('"' :: (X ++ ['\x7d'])).length + 1 := by
      have hml := members_length_le (kv :: t)
      rw [hX] at hml
      simp only [List.length_cons, List.length_append, List.length_nil] at hml ⊢
      omega
    have hin : stringifyMembersL (kv :: t) ++ '\x7d' :: ([] : List Char)
        = '"' :: (X ++ ['\x7d']) := by
      rw [hX]
      simp
    have hparse := parseMemberList_stringify (kv :: t)
      (('"' :: (X ++ ['\x7d'])).length + 1) [] (by simp) hfuel
    rw [hin] at hparse
    rw [hshape, jsonParse_mk, jsonParseObj_quote, hparse]

/-- Unfolding equation of the classifier on a string value. -/
theorem isAmpMessage_str (s : String) :
    isAmpMessage (.str s) = (jsIndexOf s AMP_MESSAGE_PREFIX == 0) := rfl

/-- Every string starting with the protocol tag classifies as an AMP
message. -/
theorem isAmpMessage_tag_append (x : String) :
    isAmpMessage (.str ( AMP_MESSAGE_PREFIX ++ x)) = true := by
  have h : listIndexOfSub AMP_MESSAGE_PREFIX.data ( AMP_MESSAGE_PREFIX ++ x).data
      = some 0 := by
    apply (listIndexOfSub_eq_zero_iff _ _).mpr
    rw [strData_append]
    exact isPrefixOf_append_self _ _
  rw [isAmpMessage_str]
  unfold jsIndexOf
  rw [h]
  rfl

/-- The first brace is found right after a brace-free prelude. -/
theorem listIndexOfSub_brace (pre body : List Char)
    (h : ∀ c ∈ pre, ('\x7b' == c) = false) :
    listIndexOfSub ['\x7b'] (pre ++ '\x7b' :: body) = some pre.length := by
  induction pre with
  | nil =>
    have hp : List.isPrefixOf ['\x7b'] ('\x7b' :: body) = true := by
      simp [List.isPrefixOf]
    simp [listIndexOfSub, hp]
  | cons c t ih =>
    have hc : ('\x7b' == c) = false := h c (List.mem_cons_self c t)
    have hpre : List.isPrefixOf ['\x7b'] (c :: (t ++ '\x7b' :: body)) = false := by
      simp [List.isPrefixOf, hc]
    simp [listIndexOfSub, hpre,
      ih (fun c2 h2 => h c2 (List.mem_cons_of_mem c h2))]

/-- Appending the empty string on the right changes nothing. -/
theorem strAppend_empty (a : String) : a ++ "" = a := by
  apply strExt
  rw [strData_append]
  show a.data ++ [] = a.data
  simp

/-- Deserializing the protocol tag followed by the JSON rendering of a
nonempty message object recovers the object. -/
theorem deserializeMessage_tag_stringify (m : Message) (hm : m ≠ []) :
    deserializeMessage (.str ( AMP_MESSAGE_PREFIX ++ jsonStringify m)) = some m := by
  unfold deserializeMessage
  rw [isAmpMessage_tag_append]
  simp only [if_true]
  have hdata : ( AMP_MESSAGE_PREFIX ++ jsonStringify m).data
      = ['a', 'm', 'p', '-'] ++ '\x7b' :: (stringifyMembersL m ++ ['\x7d']) := by
    rw [strData_append]
    rfl
  rw [hdata, listIndexOfSub_brace _ _ (by decide)]
  have hdrop : (['a', 'm', 'p', '-'] ++ '\x7b' :: (stringifyMembersL m ++ ['\x7d'])).drop
      (['a', 'm', 'p', '-'] : List Char).length
      = '\x7b' :: (stringifyMembersL m ++ ['\x7d']) := List.drop_left _ _
  simp only [List.length_cons, List.length_nil] at hdrop ⊢
  rw [hdrop]
  exact jsonParse_stringify m hm

/-! ## Object assignment and lookup lemmas -/

/-- Assignment never leaves an empty object. -/
theorem setKey_ne_nil (m : Message) (k : String) (v : JSPrim) :
    setKey m k v ≠ [] := by
  cases m with
  | nil => simp [setKey]
  | cons kv t =>
    obtain ⟨k2, v2⟩ := kv
    by_cases h : k2 = k <;> simp [setKey, h]

/-- Looking up the key just assigned yields the assigned value. -/
theorem lookupKey_setKey_self (m : Message) (k : String) (v : JSPrim) :
    lookupKey (setKey m k v) k = some v := by
  induction m with
  | nil => simp [setKey, lookupKey]
  | cons kv t ih =>
    obtain ⟨k2, v2⟩ := kv
    by_cases h : k2 = k
    · simp [setKey, h, lookupKey]
    · simp [setKey, h, lookupKey, ih]

/-- Assignment leaves every other key unchanged. -/
theorem lookupKey_setKey_other (m : Message) (k : String) (v : JSPrim)
    (k2 : String) (h : k2 ≠ k) :
    lookupKey (setKey m k v) k2 = lookupKey m k2 := by
  have hk : ¬(k = k2) := fun he => h he.symm
  induction m with
  | nil => simp [setKey, lookupKey, hk]
  | cons kv t ih =>
    obtain ⟨k3, v3⟩ := kv
    by_cases h3 : k3 = k
    · have hk3 : ¬(k3 = k2) := by rw [h3]; exact hk
      simp [setKey, h3, lookupKey, hk, hk3]
    · by_cases h4 : k3 = k2
      · simp [setKey, h3, lookupKey, h4, h]
      · simp [setKey, h3, lookupKey, h4, ih]

/-- A key present in an object with pairwise distinct keys looks up to
its value. -/
theorem lookupKey_of_mem_nodup (d : Message) (k : String) (v : JSPrim)
    (hnd : (d.map Prod.fst).Nodup) (hm : (k, v) ∈ d) :
    lookupKey d k = some v := by
  induction d with
  | nil => cases hm
  | cons kv t ih =>
    obtain ⟨k2, v2⟩ := kv
    rcases List.mem_cons.mp hm with heq | hmem
    · injection heq with h1 h2
      subst h1
      subst h2
      simp [lookupKey]
    · have hk2 : k2 ∉ t.map Prod.fst := by
        simp only [List.map_cons, List.nodup_cons] at hnd
        exact hnd.1
      have hne : ¬(k2 = k) := by
        intro he
        apply hk2
        rw [he]
        exact List.mem_map_of_mem Prod.fst hmem
      have hndt : (t.map Prod.fst).Nodup := by
        simp only [List.map_cons, List.nodup_cons] at hnd
        exact hnd.2
      simp [lookupKey, hne, ih hndt hmem]

/-! ## Codec helper predicates and facts -/

/-- A string with no control characters: the domain on which the
stringify model (which escapes only quote and backslash) matches the
JSON.stringify builtin exactly. -/
def jsonSafeString (s : String) : Prop := ∀ c ∈ s.data, 32 ≤ c.toNat

instance (s : String) : Decidable (jsonSafeString s) := by
  unfold jsonSafeString; infer_instance

/-- A JSON-safe primitive value: its strings are JSON-safe. -/
def jsonSafePrim : JSPrim → Prop
  | .str s => jsonSafeString s
  | _ => True

instance (v : JSPrim) : Decidable (jsonSafePrim v) :=
  match v with
  | .str s => (inferInstance : Decidable (jsonSafeString s))
  | .num _ => isTrue trivial
  | .boolean _ => isTrue trivial
  | .null => isTrue trivial

/-- A JSON-safe field mapping: pairwise distinct keys (a JS object
cannot hold a key twice) and JSON-safe keys and values. -/
def jsonSafeMessage (d : Message) : Prop :=
  (d.map Prod.fst).Nodup ∧ ∀ kv ∈ d, jsonSafeString kv.1 ∧ jsonSafePrim kv.2

instance (d : Message) : Decidable (jsonSafeMessage d) := by
  unfold jsonSafeMessage; infer_instance

/-- The serialized string without a version token is the tag followed by
the JSON rendering of the mutated object. -/
theorem serializeMessage_none_fst (t s : String) (d : Message) :
    (serializeMessage t s d none).1
      = AMP_MESSAGE_PREFIX
          ++ jsonStringify (setKey (setKey d "type" (.str t)) "sentinel" (.str s)) := by
  show ( AMP_MESSAGE_PREFIX ++ "") ++ jsonStringify _ = _
  rw [strAppend_empty]

/-- String append is associative. -/
theorem strAppend_assoc (a b c : String) : (a ++ b) ++ c = a ++ (b ++ c) := by
  apply strExt
  simp [strData_append, List.append_assoc]

/-- The classifier tested directly against the prefix relation. -/
def isTaggedString (m : JSAny) : Bool :=
  match m with
  | .str s => List.isPrefixOf AMP_MESSAGE_PREFIX.data s.data
  | _ => false

/-- The indexOf-based classifier agrees with the prefix relation. -/
theorem isAmpMessage_eq_isTaggedString (m : JSAny) :
    isAmpMessage m = isTaggedString m := by
  cases m with
  | str s =>
    rw [isAmpMessage_str]
    show (jsIndexOf s AMP_MESSAGE_PREFIX == 0)
        = List.isPrefixOf AMP_MESSAGE_PREFIX.data s.data
    cases hp : List.isPrefixOf AMP_MESSAGE_PREFIX.data s.data with
    | true =>
      have h0 := (listIndexOfSub_eq_zero_iff AMP_MESSAGE_PREFIX.data s.data).mpr hp
      unfold jsIndexOf
      rw [h0]
      rfl
    | false =>
      unfold jsIndexOf
      cases hx : listIndexOfSub AMP_MESSAGE_PREFIX.data s.data with
      | none => rfl
      | some n =>
        cases n with
        | zero =>
          have := (listIndexOfSub_eq_zero_iff AMP_MESSAGE_PREFIX.data s.data).mp hx
          rw [this] at hp
          cases hp
        | succ n2 =>
          show ((((n2 + 1 : Nat) : Int)) == 0) = false
          simp only [beq_eq_false_iff_ne, ne_eq]
          omega
  | num n => rfl
  | boolean b => rfl
  | null => rfl
  | undefined => rfl
  | obj o => rfl

/-- Whether the part of a tagged string from its first brace parses as
JSON; false also when there is no brace at all. -/
def remainderParses (s : String) : Bool :=
  match listIndexOfSub ['\x7b'] s.data with
  | none => false
  | some i => (jsonParse (String.mk (s.data.drop i))).isSome

/-! ## Claim theorems for the message codec -/

/-- C1: for every valid message kind t, non-empty sentinel s and
JSON-safe field mapping d, deserializing the serialization yields an
object whose type field is t, whose sentinel field is s, and which
still holds every extra field of d with an equal value.  The JSON-safe
hypotheses delimit the domain on which the stringify and parse models
coincide with the ECMAScript builtins. -/
theorem serializeMessage_roundtrip (t s : String) (d : Message)
    (_ht : validMessageType t) (_hs : s ≠ "")
    (hd : jsonSafeMessage d) (_hsent : jsonSafeString s) :
    ∃ m, deserializeMessage (.str (serializeMessage t s d none).1) = some m
      ∧ lookupKey m "type" = some (.str t)
      ∧ lookupKey m "sentinel" = some (.str s)
      ∧ ∀ k v, (k, v) ∈ d → k ≠ "type" → k ≠ "sentinel" →
          lookupKey m k = some v := by
  refine ⟨setKey (setKey d "type" (.str t)) "sentinel" (.str s), ?_, ?_, ?_, ?_⟩
  · rw [serializeMessage_none_fst]
    exact deserializeMessage_tag_stringify _ (setKey_ne_nil _ _ _)
  · rw [lookupKey_setKey_other _ _ _ _ (by decide), lookupKey_setKey_self]
  · exact lookupKey_setKey_self _ _ _
  · intro k v hkv hkt hks
    rw [lookupKey_setKey_other _ _ _ _ hks, lookupKey_setKey_other _ _ _ _ hkt]
    exact lookupKey_of_mem_nodup d k v hd.1 hkv

/-- Witness for C1 at a concrete kind, sentinel and field mapping. -/
theorem serializeMessage_roundtrip_witness :
    validMessageType "position" ∧ ("0-123" : String) ≠ ""
      ∧ jsonSafeMessage [("width", JSPrim.num 300)] ∧ jsonSafeString "0-123"
      ∧ ∃ m, deserializeMessage
            (.str (serializeMessage "position" "0-123" [("width", JSPrim.num 300)] none).1)
            = some m
          ∧ lookupKey m "type" = some (.str "position")
          ∧ lookupKey m "sentinel" = some (.str "0-123")
          ∧ ∀ k v, (k, v) ∈ ([("width", JSPrim.num 300)] : Message) →
              k ≠ "type" → k ≠ "sentinel" → lookupKey m k = some v :=
  ⟨by decide, by decide, by decide, by decide,
    serializeMessage_roundtrip "position" "0-123" [("width", JSPrim.num 300)]
      (by decide) (by decide) (by decide) (by decide)⟩

/-- C3: a value that is not a string, or a string not starting with the
tag at position zero, classifies false and deserializes to null; and
the classifier is true exactly on strings starting with the tag. -/
theorem isAmpMessage_classification (m : JSAny) :
    (isTaggedString m = false →
      isAmpMessage m = false ∧ deserializeMessage m = none)
    ∧ (isAmpMessage m = true ↔ isTaggedString m = true) := by
  constructor
  · intro hf
    have h1 : isAmpMessage m = false := by
      rw [isAmpMessage_eq_isTaggedString, hf]
    refine ⟨h1, ?_⟩
    unfold deserializeMessage
    rw [h1]
    simp
  · rw [isAmpMessage_eq_isTaggedString]

/-- Witness for C3 at a non-string value and at an untagged string. -/
theorem isAmpMessage_classification_witness :
    (isTaggedString (.num 3) = false
      ∧ isAmpMessage (.num 3) = false ∧ deserializeMessage (.num 3) = none)
    ∧ (isTaggedString (.str "hello") = false
      ∧ isAmpMessage (.str "hello") = false
      ∧ deserializeMessage (.str "hello") = none) :=
  ⟨⟨by decide, ((isAmpMessage_classification (.num 3)).1 (by decide)).1,
      ((isAmpMessage_classification (.num 3)).1 (by decide)).2⟩,
   ⟨by decide, ((isAmpMessage_classification (.str "hello")).1 (by decide)).1,
      ((isAmpMessage_classification (.str "hello")).1 (by decide)).2⟩⟩

/-- C4: a tagged string whose remainder is not parseable, either with no
brace at all or with an unparseable fragment from the first brace,
deserializes to null; the model is a total function, so no exception is
possible. -/
theorem deserializeMessage_unparseable (s : String)
    (hp : List.isPrefixOf AMP_MESSAGE_PREFIX.data s.data = true)
    (hr : remainderParses s = false) :
    deserializeMessage (.str s) = none := by
  have hamp : isAmpMessage (.str s) = true := by
    rw [isAmpMessage_eq_isTaggedString]
    exact hp
  unfold deserializeMessage
  rw [hamp]
  simp only [if_true]
  unfold remainderParses at hr
  cases hx : listIndexOfSub ['\x7b'] s.data with
  | none => simp
  | some i =>
    rw [hx] at hr
    simp only [] at hr
    cases hy : jsonParse (String.mk (s.data.drop i)) with
    | none => simp [hy]
    | some mm =>
      rw [hy] at hr
      simp at hr

/-- Witness for C4 at the spec example, the tag followed by a brace and
non-JSON text. -/
theorem deserializeMessage_unparseable_witness :
    List.isPrefixOf AMP_MESSAGE_PREFIX.data ("amp-\x7bnot json" : String).data = true
    ∧ remainderParses "amp-\x7bnot json" = false
    ∧ deserializeMessage (.str "amp-\x7bnot json") = none :=
  ⟨by decide, by decide,
    deserializeMessage_unparseable "amp-\x7bnot json" (by decide) (by decide)⟩

/-- C8: serializeMessage sets exactly the type and sentinel keys on the
data object, overwriting when present, leaves every other key unchanged,
and returns the tag, then the version token when given, then the JSON
encoding of the mutated object; the result always classifies as an AMP
message. -/
theorem serializeMessage_effects (t s : String) (d : Message) (rtv : Option String) :
    lookupKey (serializeMessage t s d rtv).2 "type" = some (.str t)
    ∧ lookupKey (serializeMessage t s d rtv).2 "sentinel" = some (.str s)
    ∧ (∀ k, k ≠ "type" → k ≠ "sentinel" →
        lookupKey (serializeMessage t s d rtv).2 k = lookupKey d k)
    ∧ (∀ k, (lookupKey (serializeMessage t s d rtv).2 k).isSome = true
        ↔ ((lookupKey d k).isSome = true ∨ k = "type" ∨ k = "sentinel"))
    ∧ (serializeMessage t s d rtv).1
        = AMP_MESSAGE_PREFIX ++ optStr rtv
            ++ jsonStringify (serializeMessage t s d rtv).2
    ∧ isAmpMessage (.str (serializeMessage t s d rtv).1) = true := by
  have h2 : (serializeMessage t s d rtv).2
      = setKey (setKey d "type" (.str t)) "sentinel" (.str s) := rfl
  have h1 : (serializeMessage t s d rtv).1
      = ( AMP_MESSAGE_PREFIX ++ optStr rtv)
          ++ jsonStringify (serializeMessage t s d rtv).2 := by
    cases rtv <;> rfl
  refine ⟨?_, ?_, ?_, ?_, ?_, ?_⟩
  · rw [h2, lookupKey_setKey_other _ _ _ _ (by decide), lookupKey_setKey_self]
  · rw [h2]
    exact lookupKey_setKey_self _ _ _
  · intro k hkt hks
    rw [h2, lookupKey_setKey_other _ _ _ _ hks, lookupKey_setKey_other _ _ _ _ hkt]
  · intro k
    by_cases hkt : k = "type"
    · subst hkt
      rw [h2, lookupKey_setKey_other _ _ _ _ (by decide), lookupKey_setKey_self]
      simp
    · by_cases hks : k = "sentinel"
      · subst hks
        rw [h2, lookupKey_setKey_self]
        simp
      · rw [h2, lookupKey_setKey_other _ _ _ _ hks,
          lookupKey_setKey_other _ _ _ _ hkt]
        simp [hkt, hks]
  · exact h1
  · rw [h1, strAppend_assoc]
    exact isAmpMessage_tag_append _

/-- Witness for C8 at a concrete call with a version token: the width
field survives untouched and the output is tag-classified. -/
theorem serializeMessage_effects_witness :
    ("width" : String) ≠ "type" ∧ ("width" : String) ≠ "sentinel"
    ∧ lookupKey (serializeMessage "embed-size" "0-7" [("width", JSPrim.num 300)] (some "1.0")).2 "width"
        = lookupKey [("width", JSPrim.num 300)] "width"
    ∧ isAmpMessage (.str (serializeMessage "embed-size" "0-7" [("width", JSPrim.num 300)] (some "1.0")).1) = true :=
  ⟨by decide, by decide,
    (serializeMessage_effects "embed-size" "0-7" [("width", JSPrim.num 300)] (some "1.0")).2.2.1
      "width" (by decide) (by decide),
    (serializeMessage_effects "embed-size" "0-7" [("width", JSPrim.num 300)] (some "1.0")).2.2.2.2.2⟩

/-! ## Claim theorems for the sentinel and random generators -/

/-- The loop of generateSentinel computes the ancestor count. -/
theorem windowDepth_eq_countAncestors : ∀ f, windowDepth f = countAncestors f := by
  intro f
  induction f with
  | top =>
    rw [windowDepth]
    simp [jsParent, countAncestors]
  | child p ih =>
    have hne : FrameChain.child p ≠ jsParent (FrameChain.child p) := by
      show FrameChain.child p ≠ p
      intro he
      have hs := congrArg sizeOf he
      simp at hs
    rw [windowDepth, dif_neg hne]
    show 1 + windowDepth p = countAncestors (FrameChain.child p)
    rw [ih]
    simp [countAncestors]
    omega

/-- C6: generateSentinel returns the decimal rendering of the frame
depth, a dash, and the random identity; the depth counts ancestor
frames up to the top window, zero for a top-level window and three for
a window nested three levels deep. -/
theorem generateSentinel_depth :
    (∀ f, windowDepth f = countAncestors f)
    ∧ windowDepth .top = 0
    ∧ windowDepth (.child (.child (.child .top))) = 3
    ∧ ∀ w : Window, (generateSentinel w).1
        = Nat.repr (countAncestors w.frame) ++ "-" ++ (getRandom w).1 := by
  refine ⟨windowDepth_eq_countAncestors, ?_, ?_, ?_⟩
  · rw [windowDepth_eq_countAncestors]
    rfl
  · rw [windowDepth_eq_countAncestors]
    rfl
  · intro w
    show Nat.repr (windowDepth w.frame) ++ "-" ++ (getRandom w).1 = _
    rw [windowDepth_eq_countAncestors]

/-- A window without a crypto source whose next Math.random draw is the
IEEE double two to the minus twentieth power, a genuine value of a
uniform draw from the unit interval; its decimal value is
9.5367431640625e-7, whose significand digits and exponent are recorded
here. -/
def mathRandomTinyWindow : Window where
  frame := .top
  cryptoPresent := false
  cryptoVals := fun _ => (0, 0)
  mathRandomSig := fun _ => [9, 5, 3, 6, 7, 4, 3, 1, 6, 4, 0, 6, 2, 5]
  mathRandomExp := fun _ => -6
  entropyIdx := 0
  locationHref := ""
  locationPort := ""
  parentLocationPort := ""
  metaAmp3pIframeSrc := none
  bootstrapBaseUrl := none

/-- C7 evaluation: on a window whose Math.random draw is below one
millionth, the ECMAScript rendering is exponential, so the fallback
branch of getRandom returns a string holding an e and not only decimal
digits, against the contract stated by the source comment. -/
theorem getRandom_exponential_rendering :
    (getRandom mathRandomTinyWindow).1 = "5367431640625e-70"
    ∧ ((getRandom mathRandomTinyWindow).1.data.all Char.isDigit) = false := by
  constructor <;> decide

/-! ## Claim theorems for the bootstrap URL resolver -/

/-- A base window for concrete resolver instances. -/
def baseWindow : Window where
  frame := .top
  cryptoPresent := false
  cryptoVals := fun _ => (0, 0)
  mathRandomSig := fun _ => []
  mathRandomExp := fun _ => 0
  entropyIdx := 0
  locationHref := ""
  locationPort := ""
  parentLocationPort := ""
  metaAmp3pIframeSrc := none
  bootstrapBaseUrl := none

/-- C2: with a declared custom bootstrap URL, a query string raises a
configuration error; a URL on the origin of the hosting document raises
a configuration error unless the host is localhost and strict mode is
off; and when the HTTPS, query-string and origin checks pass, the URL
is returned with the version-token query parameter appended. -/
theorem getCustomBootstrapBaseUrl_checks (w : Window) (strict : Bool) (c : String)
    (hm : w.metaAmp3pIframeSrc = some c) :
    (jsIndexOf c "?" ≠ -1 →
      ∃ e, getCustomBootstrapBaseUrl w strict = .error e)
    ∧ ((parseUrl c).origin = (parseUrl w.locationHref).origin →
        ¬((parseUrl c).hostname = "localhost" ∧ strict = false) →
        ∃ e, getCustomBootstrapBaseUrl w strict = .error e)
    ∧ (assertHttpsUrl c = true → jsIndexOf c "?" = -1 →
        (((parseUrl c).hostname = "localhost" ∧ strict = false)
          ∨ (parseUrl c).origin ≠ (parseUrl w.locationHref).origin) →
        getCustomBootstrapBaseUrl w strict
          = .ok (some (c ++ "?$internalRuntimeVersion$"))) := by
  have hunf : getCustomBootstrapBaseUrl w strict =
      (if !assertHttpsUrl c then .error .notHttps
       else if !(jsIndexOf c "?" == -1) then .error .queryStringPresent
       else if (((parseUrl c).hostname == "localhost" && !strict)
           || !((parseUrl c).origin == (parseUrl w.locationHref).origin)) then
         .ok (some (c ++ "?$internalRuntimeVersion$"))
       else .error .sameOrigin) := by
    unfold getCustomBootstrapBaseUrl
    rw [hm]
  refine ⟨?_, ?_, ?_⟩
  · intro hq
    rw [hunf]
    by_cases hh : assertHttpsUrl c = true
    · refine ⟨.queryStringPresent, ?_⟩
      have hqb : (jsIndexOf c "?" == -1) = false := beq_eq_false_iff_ne.mpr hq
      simp [hh, hqb]
    · simp only [Bool.not_eq_true] at hh
      exact ⟨.notHttps, by simp [hh]⟩
  · intro ho hnl
    rw [hunf]
    by_cases hh : assertHttpsUrl c = true
    · by_cases hq : jsIndexOf c "?" = -1
      · have hob : ((parseUrl c).origin == (parseUrl w.locationHref).origin) = true :=
          beq_iff_eq.mpr ho
        have hcond : (((parseUrl c).hostname == "localhost") && !strict) = false := by
          cases hst : strict with
          | true => simp
          | false =>
            have hl : (parseUrl c).hostname ≠ "localhost" := by
              intro hl2
              rw [hst] at hnl
              exact hnl ⟨hl2, rfl⟩
            simp [hl]
        refine ⟨.sameOrigin, ?_⟩
        have hqb : (jsIndexOf c "?" == -1) = true := beq_iff_eq.mpr hq
        simp [hh, hqb, hob, hcond]
      · exact ⟨.queryStringPresent, by simp [hh, beq_eq_false_iff_ne.mpr hq]⟩
    · simp only [Bool.not_eq_true] at hh
      exact ⟨.notHttps, by simp [hh]⟩
  · intro hh hq hor
    rw [hunf]
    have hcond : (((parseUrl c).hostname == "localhost" && !strict)
        || !((parseUrl c).origin == (parseUrl w.locationHref).origin)) = true := by
      rcases hor with ⟨hl, hstf⟩ | hne
      · subst hstf
        simp [beq_iff_eq.mpr hl]
      · simp [beq_eq_false_iff_ne.mpr hne]
    simp [hh, beq_iff_eq.mpr hq, hcond]

/-- A window declaring an off-origin custom bootstrap URL. -/
def customUrlWindow : Window :=
  { baseWindow with
      metaAmp3pIframeSrc := some "https://3p.example.com/frame",
      locationHref := "https://pub.example.com/page" }

/-- Witness for C2: the checks pass on an off-origin HTTPS URL without
a query string, and the version token is appended. -/
theorem getCustomBootstrapBaseUrl_checks_witness :
    customUrlWindow.metaAmp3pIframeSrc = some "https://3p.example.com/frame"
    ∧ assertHttpsUrl "https://3p.example.com/frame" = true
    ∧ jsIndexOf "https://3p.example.com/frame" "?" = -1
    ∧ (parseUrl "https://3p.example.com/frame").origin
        ≠ (parseUrl customUrlWindow.locationHref).origin
    ∧ getCustomBootstrapBaseUrl customUrlWindow false
        = .ok (some ("https://3p.example.com/frame" ++ "?$internalRuntimeVersion$")) :=
  ⟨rfl, by decide, by decide, by decide,
    (getCustomBootstrapBaseUrl_checks customUrlWindow false
        "https://3p.example.com/frame" rfl).2.2
      (by decide) (by decide) (Or.inr (by decide))⟩

/-- The local ads host is never the empty string. -/
theorem getAdsLocalhost_ne_empty (env : Env) (w : Window) :
    getAdsLocalhost env w ≠ "" := by
  unfold getAdsLocalhost
  by_cases h : env.urls.localDev = true
  · simp only [h, if_true]
    exact append_left_ne_empty _ (by decide)
  · simp only [Bool.not_eq_true] at h
    simp only [h, Bool.false_eq_true, if_false]
    exact append_left_ne_empty _ (by decide)

/-- The default bootstrap URL is never the empty string. -/
theorem getDefaultBootstrapBaseUrl_ne_empty (env : Env) (w : Window)
    (b : Option String) :
    (getDefaultBootstrapBaseUrl env w b).1 ≠ "" := by
  unfold getDefaultBootstrapBaseUrl
  by_cases hm : (env.mode.localDev || env.mode.test) = true
  · simp only [hm, if_true]
    by_cases hov : jsTruthy env.overrideBootstrapBaseUrl = true
    · simp only [hov, if_true]
      cases ho : env.overrideBootstrapBaseUrl with
      | none => rw [ho] at hov; simp [jsTruthy] at hov
      | some s =>
        rw [ho] at hov
        simp only [jsTruthy] at hov
        simp only [ho, optStr]
        simp only [Bool.not_eq_eq_eq_not, Bool.not_true, beq_eq_false_iff_ne,
          ne_eq] at hov
        exact hov
    · simp only [Bool.not_eq_true] at hov
      simp only [hov, Bool.false_eq_true, if_false]
      show (getAdsLocalhost env w ++ "/dist.3p/"
          ++ (if env.mode.minified then
                "$internalRuntimeVersion$/" ++ jsOrStr (optStr b) "frame"
              else "current/" ++ jsOrStr (optStr b) "frame" ++ ".max")
          ++ ".html") ≠ ""
      exact append_left_ne_empty _ (append_left_ne_empty _
        (append_left_ne_empty _ (getAdsLocalhost_ne_empty env w)))
  · simp only [Bool.not_eq_true] at hm
    simp only [hm, Bool.false_eq_true, if_false]
    show ("https://" ++ (getSubDomain w).1 ++ "." ++ env.urls.thirdPartyFrameHost
        ++ "/$internalRuntimeVersion$/" ++ jsOrStr (optStr b) "frame"
        ++ ".html") ≠ ""
    exact append_left_ne_empty _ (append_left_ne_empty _ (append_left_ne_empty _
      (append_left_ne_empty _ (append_left_ne_empty _ (append_left_ne_empty _
        (by decide))))))

/-- A successful uncached resolution stores a nonempty URL in the window
cache field. -/
theorem computeBootstrapBaseUrl_ok (env : Env) (w : Window) (strict : Bool)
    (u : String) (w1 : Window)
    (h : computeBootstrapBaseUrl env w strict = .ok (u, w1)) :
    w1.bootstrapBaseUrl = some u ∧ u ≠ "" := by
  unfold computeBootstrapBaseUrl at h
  split at h
  · cases h
  · rename_i cu heq
    by_cases ht : jsTruthy cu = true
    · rw [if_pos ht] at h
      simp only [Except.ok.injEq, Prod.mk.injEq] at h
      obtain ⟨hu, hw⟩ := h
      subst hu
      subst hw
      refine ⟨rfl, ?_⟩
      cases hcu : cu with
      | none => rw [hcu] at ht; simp [jsTruthy] at ht
      | some s =>
        rw [hcu] at ht
        simp only [jsTruthy] at ht
        simp only [hcu, optStr]
        simp only [Bool.not_eq_eq_eq_not, Bool.not_true, beq_eq_false_iff_ne,
          ne_eq] at ht
        exact ht
    · rw [if_neg ht] at h
      simp only [Except.ok.injEq, Prod.mk.injEq] at h
      obtain ⟨hu, hw⟩ := h
      subst hu
      subst hw
      exact ⟨rfl, getDefaultBootstrapBaseUrl_ne_empty env w none⟩

/-- After any successful resolution the URL is cached, so a second call
returns the same string and the same window untouched, whatever the
strict flag of either call. -/
theorem getBootstrapBaseUrl_memo (env : Env) (w : Window) (s1 s2 : Bool)
    (u : String) (w1 : Window)
    (h : getBootstrapBaseUrl env w s1 = .ok (u, w1)) :
    getBootstrapBaseUrl env w1 s2 = .ok (u, w1) := by
  have hcache : w1.bootstrapBaseUrl = some u ∧ u ≠ "" := by
    unfold getBootstrapBaseUrl at h
    by_cases hb : jsTruthy w.bootstrapBaseUrl = true
    · rw [if_pos hb] at h
      simp only [Except.ok.injEq, Prod.mk.injEq] at h
      obtain ⟨hu, hw⟩ := h
      subst hw
      cases hcb : w.bootstrapBaseUrl with
      | none => rw [hcb] at hb; simp [jsTruthy] at hb
      | some s =>
        rw [hcb] at hb
        rw [hcb] at hu
        simp only [optStr] at hu
        simp only [jsTruthy] at hb
        simp only [Bool.not_eq_eq_eq_not, Bool.not_true, beq_eq_false_iff_ne,
          ne_eq] at hb
        subst hu
        exact ⟨rfl, hb⟩
    · rw [if_neg hb] at h
      exact computeBootstrapBaseUrl_ok env w s1 u w1 h
  have hb1 : jsTruthy w1.bootstrapBaseUrl = true := by
    rw [hcache.1]
    simp [jsTruthy, hcache.2]
  unfold getBootstrapBaseUrl
  rw [if_pos hb1, hcache.1]
  rfl

/-- A production-mode environment with no overrides. -/
def prodEnv : Env where
  mode := ⟨false, false, false⟩
  urls := ⟨false, "3p.ampproject.net", "https://3p.ampproject.net"⟩
  overrideBootstrapBaseUrl := none

/-- A window with a crypto source whose successive draws differ, so the
randomized subdomain would differ between successive computations. -/
def cryptoWindow : Window :=
  { baseWindow with cryptoPresent := true, cryptoVals := fun i => (i, 0) }

/-- The first resolution on the crypto window. -/
def resolvedOnce : Except ConfigError (String × Window) :=
  getBootstrapBaseUrl prodEnv cryptoWindow false

/-- The window state after the first resolution. -/
def windowAfterResolve : Window :=
  match resolvedOnce with
  | .ok p => p.2
  | .error _ => cryptoWindow

/-- The resolution after the test-only cache reset. -/
def resolvedAfterReset : Except ConfigError (String × Window) :=
  getBootstrapBaseUrl prodEnv (resetBootstrapBaseUrlForTesting windowAfterResolve) false

/-- C5: two successive calls on the same window return the same string,
even though the entropy stream would give the randomized-subdomain
computation a different value on the second call; and after the
test-only cache reset a subsequent call does return a different
randomized subdomain, shown on a concrete window whose successive
crypto draws differ. -/
theorem getBootstrapBaseUrl_memoization :
    (∀ (env : Env) (w : Window) (s1 s2 : Bool) (u : String) (w1 : Window),
      getBootstrapBaseUrl env w s1 = .ok (u, w1) →
      getBootstrapBaseUrl env w1 s2 = .ok (u, w1))
    ∧ resolvedOnce.toOption.map Prod.fst
        = some "https://d-00.3p.ampproject.net/$internalRuntimeVersion$/frame.html"
    ∧ resolvedAfterReset.toOption.map Prod.fst
        = some "https://d-10.3p.ampproject.net/$internalRuntimeVersion$/frame.html"
    ∧ ("https://d-00.3p.ampproject.net/$internalRuntimeVersion$/frame.html" : String)
        ≠ "https://d-10.3p.ampproject.net/$internalRuntimeVersion$/frame.html" :=
  ⟨getBootstrapBaseUrl_memo, by decide, by decide, by decide⟩

/-- Witness for C5: the first resolution on the crypto window succeeds,
and the second call returns the identical string and window. -/
theorem getBootstrapBaseUrl_memoization_witness :
    getBootstrapBaseUrl prodEnv cryptoWindow false
      = .ok ("https://d-00.3p.ampproject.net/$internalRuntimeVersion$/frame.html",
          windowAfterResolve)
    ∧ getBootstrapBaseUrl prodEnv windowAfterResolve true
      = .ok ("https://d-00.3p.ampproject.net/$internalRuntimeVersion$/frame.html",
          windowAfterResolve) :=
  ⟨rfl,
    getBootstrapBaseUrl_memoization.1 prodEnv cryptoWindow false true
      "https://d-00.3p.ampproject.net/$internalRuntimeVersion$/frame.html"
      windowAfterResolve rfl⟩

/-- Whether a resolver result is a thrown configuration error. -/
def isConfigError {α : Type} : Except ConfigError α → Bool
  | .error _ => true
  | .ok _ => false

/-- A window declaring a custom bootstrap URL on its own localhost
origin: resolvable only with strict mode off. -/
def localhostMetaWindow : Window :=
  { baseWindow with
      metaAmp3pIframeSrc := some "https://localhost/frame",
      locationHref := "https://localhost/page" }

/-- The non-strict resolution on the localhost-origin window. -/
def localhostResolved : Except ConfigError (String × Window) :=
  getBootstrapBaseUrl prodEnv localhostMetaWindow false

/-- The window state after the non-strict resolution. -/
def localhostWindowAfter : Window :=
  match localhostResolved with
  | .ok p => p.2
  | .error _ => localhostMetaWindow

/-- C10: once a window carries a cached resolved URL, every later call
returns the cached string unchanged whatever the strict flag, without
re-running the security checks; concretely, a same-origin localhost
custom URL fails a fresh strict resolution, yet after a non-strict
resolution the cached URL is returned even under strict mode. -/
theorem getBootstrapBaseUrl_cache_bypasses_checks :
    (∀ (env : Env) (w : Window) (strict : Bool) (u : String),
      w.bootstrapBaseUrl = some u → u ≠ "" →
      getBootstrapBaseUrl env w strict = .ok (u, w))
    ∧ (∀ (env : Env) (w : Window) (u : String) (w1 : Window),
      getBootstrapBaseUrl env w false = .ok (u, w1) →
      getBootstrapBaseUrl env w1 true = .ok (u, w1))
    ∧ isConfigError (getBootstrapBaseUrl prodEnv localhostMetaWindow true) = true
    ∧ localhostResolved.toOption.map Prod.fst
        = some ("https://localhost/frame" ++ "?$internalRuntimeVersion$")
    ∧ (getBootstrapBaseUrl prodEnv localhostWindowAfter true).toOption.map Prod.fst
        = some ("https://localhost/frame" ++ "?$internalRuntimeVersion$") := by
  refine ⟨?_, ?_, ?_, ?_, ?_⟩
  · intro env w strict u hc hne
    have hb : jsTruthy w.bootstrapBaseUrl = true := by
      rw [hc]
      simp [jsTruthy, hne]
    unfold getBootstrapBaseUrl
    rw [if_pos hb, hc]
    rfl
  · intro env w u w1 h
    exact getBootstrapBaseUrl_memo env w false true u w1 h
  · decide
  · decide
  · decide

/-- A window already carrying a cached bootstrap URL. -/
def cachedWindow : Window :=
  { baseWindow with bootstrapBaseUrl := some "https://cached.example/f.html" }

/-- Witness for C10: the cached URL comes back unchanged under strict
mode. -/
theorem getBootstrapBaseUrl_cache_bypasses_checks_witness :
    cachedWindow.bootstrapBaseUrl = some "https://cached.example/f.html"
    ∧ ("https://cached.example/f.html" : String) ≠ ""
    ∧ getBootstrapBaseUrl prodEnv cachedWindow true
        = .ok ("https://cached.example/f.html", cachedWindow) :=
  ⟨rfl, by decide,
    getBootstrapBaseUrl_cache_bypasses_checks.1 prodEnv cachedWindow true
      "https://cached.example/f.html" rfl (by decide)⟩

/-- A local-development environment running a minified build. -/
def localDevMinifiedEnv : Env where
  mode := ⟨true, false, true⟩
  urls := ⟨false, "3p.ampproject.net", "https://3p.ampproject.net"⟩
  overrideBootstrapBaseUrl := none

/-- A local-development environment on a non-minified build. -/
def localDevEnv : Env where
  mode := ⟨true, false, false⟩
  urls := ⟨false, "3p.ampproject.net", "https://3p.ampproject.net"⟩
  overrideBootstrapBaseUrl := none

/-- A window whose location carries port 8000. -/
def portWindow : Window := { baseWindow with locationPort := "8000" }

/-- C9 counterexample: with localDev set and no override, a minified
build yields the versioned frame.html path, not the claimed
current/frame.max.html path. -/
theorem getDefaultBootstrapBaseUrl_minified_counterexample :
    localDevMinifiedEnv.mode.localDev = true
    ∧ jsTruthy localDevMinifiedEnv.overrideBootstrapBaseUrl = false
    ∧ (getDefaultBootstrapBaseUrl localDevMinifiedEnv portWindow none).1
        = "http://ads.localhost:8000/dist.3p/$internalRuntimeVersion$/frame.html"
    ∧ (getDefaultBootstrapBaseUrl localDevMinifiedEnv portWindow none).1
        ≠ "http://ads.localhost:8000/dist.3p/current/frame.max.html" := by
  refine ⟨rfl, rfl, ?_, ?_⟩ <;> decide

/-- C9 as amended: with localDev set, no override, a non-minified build
and the localDev host flag unset, the default bootstrap URL is the
ads.localhost URL with the current/frame.max.html path, the port taken
from the window location or, when empty, its parent location. -/
theorem getDefaultBootstrapBaseUrl_localdev (env : Env) (w : Window)
    (h1 : env.mode.localDev = true)
    (h2 : jsTruthy env.overrideBootstrapBaseUrl = false)
    (h3 : env.mode.minified = false)
    (h4 : env.urls.localDev = false) :
    (getDefaultBootstrapBaseUrl env w none).1
      = "http://ads.localhost:" ++ jsOrStr w.locationPort w.parentLocationPort
          ++ "/dist.3p/current/frame.max.html" := by
  unfold getDefaultBootstrapBaseUrl getAdsLocalhost
  simp only [h1, h2, h3, h4, Bool.true_or, if_true, Bool.false_eq_true, if_false]
  show ("http://ads.localhost:" ++ jsOrStr w.locationPort w.parentLocationPort
      ++ "/dist.3p/" ++ ("current/" ++ jsOrStr (optStr none) "frame" ++ ".max")
      ++ ".html")
    = "http://ads.localhost:" ++ jsOrStr w.locationPort w.parentLocationPort
        ++ "/dist.3p/current/frame.max.html"
  have hb : jsOrStr (optStr none) "frame" = "frame" := by decide
  rw [hb]
  apply strExt
  simp only [strData_append, List.append_assoc]
  congr 1

/-- Witness for the amended C9 on a concrete local-development
environment with port 8000. -/
theorem getDefaultBootstrapBaseUrl_localdev_witness :
    localDevEnv.mode.localDev = true
    ∧ jsTruthy localDevEnv.overrideBootstrapBaseUrl = false
    ∧ localDevEnv.mode.minified = false
    ∧ localDevEnv.urls.localDev = false
    ∧ (getDefaultBootstrapBaseUrl localDevEnv portWindow none).1
        = "http://ads.localhost:"
            ++ jsOrStr portWindow.locationPort portWindow.parentLocationPort
            ++ "/dist.3p/current/frame.max.html" :=
  ⟨rfl, rfl, rfl, rfl,
    getDefaultBootstrapBaseUrl_localdev localDevEnv portWindow rfl rfl rfl rfl⟩
